import Mathlib

/-!
Verification of the ragdaemon core: chunk decomposition (annotators/chunker.py),
hierarchy fingerprinting (annotators/hierarchy.py) and the token-budgeted
context assembler (daemon.py), shallowly embedded in Lean.

Python strings are modelled as Lean `String`, Python ints as `Int`,
Python dicts of chunk data as explicit structures carrying their key list,
fallible code as `Except String`.
-/

namespace Ragdaemon

/-- `s.split(c)` in Python: split a character list at every occurrence of `c`.
Always returns at least one (possibly empty) component. -/
def splitChar (c : Char) : List Char → List (List Char)
  | [] => [[]]
  | a :: rest =>
    let r := splitChar c rest
    if a = c then [] :: r
    else
      match r with
      | [] => [[a]]
      | h :: t => (a :: h) :: t

/-- Python `s.split(sep)` for a one-character separator, on `String`. -/
def pySplit (c : Char) (s : String) : List String :=
  (splitChar c s.toList).map (fun l => String.mk l)

/-- Python `s.count(c)` for a single character. -/
def countChar (c : Char) (s : String) : Nat :=
  s.toList.count c

/-- Python `str.splitlines()`: lines without trailing empty component
(`"".splitlines() = []`, `"a\n".splitlines() = ["a"]`). -/
def pySplitLinesAux (cur : List Char) : List Char → List (List Char)
  | [] => if cur.isEmpty then [] else [cur]
  | c :: rest => if c = '\n' then cur :: pySplitLinesAux [] rest
      else pySplitLinesAux (cur ++ [c]) rest

/-- Python `str.splitlines()` on `String`. -/
def pySplitLines (s : String) : List String :=
  (pySplitLinesAux [] s.toList).map (fun l => String.mk l)

/-- Python `".".join(parts)`. -/
def joinDots : List String → String
  | [] => ""
  | [s] => s
  | s :: rest => s ++ "." ++ joinDots rest

/-- Python `range(a, b)` as a list of `Int` (empty when `b ≤ a`). -/
def intRange (a b : Int) : List Int :=
  (List.range (b - a).toNat).map (fun (k : Nat) => a + (k : Int))

/-- The `dict` returned by the boundary detector, as the source sees it:
its key list (`chunk.keys()`) plus the values at the three expected keys.
`is_chunk_valid` rejects the dict by its key set before reading any value,
so carrying the three values alongside the key list is faithful. -/
structure Chunk where
  keys : List String
  id : String
  start_line : Int
  end_line : Int
deriving DecidableEq, Repr

/-- chunker.py `is_chunk_valid`: exactly the keys {id, start_line, end_line},
the id holds exactly one ":" and the part after it is non-empty. -/
def is_chunk_valid (chunk : Chunk) : Bool :=
  if ¬ (chunk.keys.toFinset = ({"id", "start_line", "end_line"} : Finset String)) then
    false
  else if ¬ (countChar ':' chunk.id = 1) then
    false
  else if ¬ (0 < ((pySplit ':' chunk.id).getD 1 "").length) then
    false
  else
    true

/-- A standardized chunk descriptor `{id, ref}` as stored on the file node. -/
structure ChunkRef where
  id : String
  ref : String
deriving DecidableEq, Repr

/-- Lines 1..N of the file, as the source's `set(range(1, len(file_lines)+1))`
(listed in ascending order). -/
def fileLineNumbers (n : Nat) : List Int :=
  (List.range n).map (fun (k : Nat) => (k : Int) + 1)

/-- Is line `i` covered by some detector chunk's `range(start_line, end_line+1)`? -/
def coveredBy (chunks : List Chunk) (i : Int) : Bool :=
  chunks.any (fun c => c.start_line ≤ i && i ≤ c.end_line)

/-- chunker.py lines 58-61: the BASE chunk's lines, `{1..N}` minus every line
covered by a detector chunk, in ascending order (the source sorts the set). -/
def baseChunkLines (n : Nat) (chunks : List Chunk) : List Int :=
  (fileLineNumbers n).filter (fun i => ¬ coveredBy chunks i)

/-- chunker.py lines 65-76: the run-serialization loop over the sorted
uncovered lines, carrying the current run `start..e`. A run flushed inside
the loop is written bare when it has length one; the final run is always
written `start-end`. -/
def refsLoop (start e : Int) : List Int → List String
  | [] => [toString start ++ "-" ++ toString e]
  | i :: rest =>
    if i = e + 1 then refsLoop start i rest
    else (if start = e then toString start else toString start ++ "-" ++ toString e)
      :: refsLoop i i rest

/-- chunker.py lines 62-78: serialized BASE complement runs (empty when every
line is covered). -/
def baseChunkRefs (n : Nat) (chunks : List Chunk) : List String :=
  match baseChunkLines n chunks with
  | [] => []
  | x :: xs => refsLoop x x xs

/-- chunker.py lines 80-83: the BASE chunk descriptor. -/
def baseChunk (node : String) (n : Nat) (chunks : List Chunk) : ChunkRef :=
  let refs := baseChunkRefs n chunks
  { id := node ++ ":BASE",
    ref := if refs.isEmpty then node
      else node ++ ":" ++ String.intercalate "," refs }

/-- chunker.py `get_file_chunk_data`, the pure core: the file's lines and the
detector output are inputs; the database write is omitted, the computed chunk
list (stored as `data["chunks"]`) is returned. An empty file yields `[]`
without consulting the detector; an invalid detector chunk raises; a
non-empty detector output is standardized to `{id, ref}` pairs followed by
the BASE chunk. -/
def get_file_chunk_data (node : String) (fileLines : List String)
    (detected : List Chunk) : Except String (List ChunkRef) :=
  if fileLines.length = 0 then Except.ok []
  else if ¬ (detected.all is_chunk_valid) then
    Except.error "ValueError: invalid chunk data"
  else if detected.isEmpty then Except.ok []
  else
    Except.ok
      ((detected.map (fun c =>
        { id := c.id,
          ref := node ++ ":" ++ toString c.start_line ++ "-" ++ toString c.end_line })) ++
        [baseChunk node fileLines.length detected])

/-! ### Runs of consecutive uncovered lines

`runsLoop` mirrors `refsLoop` but keeps the runs as `(start, end)` pairs
instead of serializing them; it is used to state what the source's
serialization loop actually produces. -/

def runsLoop (start e : Int) : List Int → List (Int × Int)
  | [] => [(start, e)]
  | i :: rest =>
    if i = e + 1 then runsLoop start i rest
    else (start, e) :: runsLoop i i rest

/-- The maximal consecutive runs of an ascending line list. -/
def runsOf : List Int → List (Int × Int)
  | [] => []
  | x :: xs => runsLoop x x xs

/-- The serialization the source applies to a run flushed inside the loop:
bare `"n"` for a run of length one, `"start-end"` otherwise. -/
def serializeRun (r : Int × Int) : String :=
  if r.1 = r.2 then toString r.1 else toString r.1 ++ "-" ++ toString r.2

/-- The serialization the source applies to the final run: always
`"start-end"`, even for a run of length one. -/
def serializeLastRun (r : Int × Int) : String :=
  toString r.1 ++ "-" ++ toString r.2

/-- Serialize a run list the way chunker.py lines 65-76 do: every run but the
last by `serializeRun`, the last by `serializeLastRun`. -/
def amendedSerialize : List (Int × Int) → List String
  | [] => []
  | [r] => [serializeLastRun r]
  | r :: rest => serializeRun r :: amendedSerialize rest

/-! ### add_file_chunks_to_graph (chunker.py lines 98-160)

The graph mutation is modelled as an explicit edge list: networkx
`MultiDiGraph.add_edge` always appends a fresh parallel edge, so the
multigraph's hierarchy edges are a `List (String × String)`; the
`edges_to_add` python `set` is modelled as a duplicate-free list built by
`insertEdge`. The try-block around the database fetch is abstracted by a
predicate `resolveOk` saying whether the chunk's document resolution
succeeded (a failing chunk is skipped together with its links, as in the
source's `continue`). -/

/-- Insert an edge into the deduplicating `edges_to_add` set. -/
def insertEdge (e : String × String) (l : List (String × String)) :
    List (String × String) :=
  if e ∈ l then l else l ++ [e]

/-- The parent chain built by `_link_to_base_chunk` for a chunk whose id
splits into `pathStr` and dot-segments `segs`: starting from the deepest id,
the source walks to `pathStr:<segs minus last>` until one segment is left,
whose parent is the BASE id. Enumerated here from the BASE end inward; the
source inserts the same pairs into a set, so the order is immaterial. -/
def chainForward (cur : String) : List String → List (String × String)
  | [] => []
  | s :: rest => (cur, cur ++ "." ++ s) :: chainForward (cur ++ "." ++ s) rest

/-- All `(parent, child)` pairs `_link_to_base_chunk` adds for id
`pathStr ++ ":" ++ joinDots segs`. -/
def linkToBase (baseId pathStr : String) (segs : List String) :
    List (String × String) :=
  match segs with
  | [] => [(baseId, pathStr ++ ":")]
  | s :: rest => (baseId, pathStr ++ ":" ++ s) :: chainForward (pathStr ++ ":" ++ s) rest

/-- The per-chunk loop of `add_file_chunks_to_graph`: for every chunk whose
record resolution succeeded, split its id at ":" (Python unpacking raises
`ValueError` unless the split has exactly two parts) and insert its parent
chain into the accumulating edge set. -/
def edgesLoop (baseId : String) (resolveOk : ChunkRef → Bool) :
    List ChunkRef → List (String × String) → Except String (List (String × String))
  | [], acc => Except.ok acc
  | c :: rest, acc =>
    if resolveOk c then
      match pySplit ':' c.id with
      | [p, cs] =>
        edgesLoop baseId resolveOk rest
          ((linkToBase baseId p (pySplit '.' cs)).foldl (fun a e => insertEdge e a) acc)
      | _ => Except.error "ValueError: not enough values to unpack"
    else edgesLoop baseId resolveOk rest acc

/-- chunker.py `add_file_chunks_to_graph` with `refresh=False` (as invoked
from `Chunker.annotate`), restricted to the hierarchy edges it adds: an empty
chunk list returns early with no edges; otherwise the file-to-BASE edge is
seeded and every resolvable chunk contributes its parent chain. -/
def fileChunkEdges (file : String) (chunks : List ChunkRef)
    (resolveOk : ChunkRef → Bool) : Except String (List (String × String)) :=
  if chunks.length = 0 then Except.ok []
  else edgesLoop (file ++ ":BASE") resolveOk chunks [(file, file ++ ":BASE")]

/-! ### The Chunker stage on a graph (chunker.py lines 163-257)

For the idempotence claim the graph is modelled by what `Chunker.is_complete`
and `Chunker.annotate` read and write: the file nodes with their (possibly
absent) `chunks` attribute, and the multigraph's hierarchy edge list. All
files are taken to match the extension allow-list. -/

structure ChunkerGraph where
  files : List (String × Option (List ChunkRef))
  edges : List (String × String)
deriving DecidableEq, Repr

/-- chunker.py `Chunker.is_complete`: every (extension-matching) file node
has a non-null `chunks` attribute. -/
def chunker_is_complete (g : ChunkerGraph) : Bool :=
  g.files.all (fun fd => ¬ fd.2.isNone)

/-- chunker.py `Chunker.annotate`: files lacking `chunks` are chunked via the
detector (`get_file_chunk_data`); then `add_file_chunks_to_graph` runs for
every file node, appending its hierarchy edges to the multigraph (networkx
`add_edge` never deduplicates against existing edges). -/
def chunker_annotate (fileLines : String → List String)
    (detect : String → List Chunk) (resolveOk : ChunkRef → Bool)
    (g : ChunkerGraph) : Except String ChunkerGraph := do
  let files ← g.files.mapM (fun fd =>
    match fd.2 with
    | some cs => Except.ok (fd.1, some cs)
    | none => do
      let cs ← get_file_chunk_data fd.1 (fileLines fd.1) (detect fd.1)
      Except.ok (fd.1, some cs))
  let es ← files.foldlM (fun acc fd => do
    let newEdges ← fileChunkEdges fd.1 (fd.2.getD []) resolveOk
    Except.ok (acc ++ newEdges)) ([] : List (String × String))
  Except.ok { files := files, edges := g.edges ++ es }

/-! ### The Hierarchy stage fingerprint (hierarchy.py lines 50-96)

Only what the claim about `files_checksum` needs is modelled: the graph's
`files_checksum` attribute, the tracked files' checksum list (the values of
the `checksums` dict computed by `get_active_checksums`), and the hash
function `hash_str` (external, in ragdaemon/utils.py) as a parameter. -/

structure HGraph where
  cwdAttr : String
  files_checksum : Option String
deriving DecidableEq, Repr

/-- Python `sorted` on strings (insertion sort; `sorted` is stable and total
on the lexicographic order). -/
def insertSorted (s : String) : List String → List String
  | [] => [s]
  | t :: rest => if s ≤ t then s :: t :: rest else t :: insertSorted s rest

/-- Python `sorted(checksums.values())`. -/
def sortStrings : List String → List String
  | [] => []
  | s :: rest => insertSorted s (sortStrings rest)

/-- hierarchy.py lines 56 and 65: `hash_str("".join(sorted(checksums.values())))`. -/
def hierarchy_files_checksum (hashStr : String → String)
    (checksums : List String) : String :=
  hashStr (String.join (sortStrings checksums))

/-- hierarchy.py `Hierarchy.is_complete`: recompute the fingerprint from the
current tracked files and compare with the graph attribute (`graph.graph.get`
yields `None` when absent, which never equals the recomputed string). -/
def hierarchy_is_complete (hashStr : String → String) (checksums : List String)
    (g : HGraph) : Bool :=
  g.files_checksum = some (hierarchy_files_checksum hashStr checksums)

/-- hierarchy.py `Hierarchy.annotate`, restricted to the graph attributes: a
fresh graph is built carrying `cwd` over and storing the recomputed
fingerprint. -/
def hierarchy_annotate (hashStr : String → String) (checksums : List String)
    (g : HGraph) : HGraph :=
  { cwdAttr := g.cwdAttr, files_checksum := some (hierarchy_files_checksum hashStr checksums) }

/-! ### The context assembler (daemon.py lines 64-164)

`Daemon.get_context_message` and `Daemon.render_context_message`. External
collaborators are parameters: `nodeDoc path` is `Some document` when `path`
is a node of the graph and its checksum resolves in the store (the source's
`path in self.graph` test followed by the db lookup), `tokenCounter` is
`ragdaemon.llm.token_counter`, and the ranked search results are given as a
list. The `context` dict is a `List (String × Msg)` in insertion order;
Python `set`s inside a message are duplicate-free lists in insertion order. -/

structure Msg where
  id : String
  lines : List Int
  tags : List String
  document : String
deriving DecidableEq, Repr

abbrev Ctx := List (String × Msg)

def ctxLookup (ctx : Ctx) (path : String) : Option Msg :=
  (ctx.find? (fun pm => pm.1 = path)).map (fun pm => pm.2)

def ctxAppend (ctx : Ctx) (path : String) (m : Msg) : Ctx :=
  ctx ++ [(path, m)]

def ctxUpdate (ctx : Ctx) (path : String) (f : Msg → Msg) : Ctx :=
  ctx.map (fun pm => if pm.1 = path then (pm.1, f pm.2) else pm)

/-- `set.add` on the line set. -/
def linesAdd (i : Int) (l : List Int) : List Int :=
  if i ∈ l then l else l ++ [i]

/-- `set.add` on the tag set. -/
def tagsAdd (t : String) (l : List String) : List String :=
  if t ∈ l then l else l ++ [t]

def ctxAddLines (ctx : Ctx) (path : String) (ls : List Int) : Ctx :=
  ctxUpdate ctx path (fun m => { m with lines := ls.foldl (fun a i => linesAdd i a) m.lines })

def ctxAddTag (ctx : Ctx) (path : String) (t : String) : Ctx :=
  ctxUpdate ctx path (fun m => { m with tags := tagsAdd t m.tags })

/-- Python `id.split(":", 1)`: split at the first occurrence only. -/
def splitFirstAux (c : Char) (acc : List Char) : List Char → String × Option String
  | [] => (String.mk acc, none)
  | a :: rest =>
    if a = c then (String.mk acc, some (String.mk rest))
    else splitFirstAux c (acc ++ [a]) rest

def splitFirstChar (c : Char) (s : String) : String × Option String :=
  splitFirstAux c [] s.toList

/-- Decimal digit string to `Nat`. -/
def parseNatDigits (acc : Nat) : List Char → Option Nat
  | [] => some acc
  | c :: rest =>
    if c.isDigit then parseNatDigits (acc * 10 + (c.toNat - 48)) rest else none

/-- Python `int(s)` on the strings the source feeds it (optional sign and
digits); anything else raises `ValueError`. -/
def pyInt (s : String) : Except String Int :=
  match s.toList with
  | '-' :: rest =>
    if rest.isEmpty then Except.error "ValueError: invalid literal for int"
    else
      match parseNatDigits 0 rest with
      | some n => Except.ok (-(n : Int))
      | none => Except.error "ValueError: invalid literal for int"
  | l =>
    if l.isEmpty then Except.error "ValueError: invalid literal for int"
    else
      match parseNatDigits 0 l with
      | some n => Except.ok (n : Int)
      | none => Except.error "ValueError: invalid literal for int"

/-- Python list indexing `l[i]`: negative indices count from the end,
anything out of range raises `IndexError`. -/
def pyIndex (l : List String) (i : Int) : Except String String :=
  let j := if i < 0 then i + (l.length : Int) else i
  if 0 ≤ j then
    match l.get? j.toNat with
    | some s => Except.ok s
    | none => Except.error "IndexError: list index out of range"
  else Except.error "IndexError: list index out of range"

/-- Python `sorted` on the line set. -/
def insertSortedInt (i : Int) : List Int → List Int
  | [] => [i]
  | j :: rest => if i ≤ j then i :: j :: rest else j :: insertSortedInt i rest

def sortInts : List Int → List Int
  | [] => []
  | i :: rest => insertSortedInt i (sortInts rest)

/-- daemon.py lines 73-79: render the selected lines in ascending order,
prefixing each with its number and marking gaps larger than one with a
standalone ellipsis line; `file_lines[line]` is Python indexing into
`document.splitlines()`. -/
def render_lines (docLines : List String) (last : Int) : List Int → Except String String
  | [] => Except.ok ""
  | i :: rest => do
    let gap := if i - last > 1 then "...\n" else ""
    let s ← pyIndex docLines i
    let tail ← render_lines docLines i rest
    Except.ok (gap ++ toString i ++ ": " ++ s ++ "\n" ++ tail)

/-- One message block: header `id ( tags )` then the rendered lines. -/
def render_one (m : Msg) : Except String String := do
  let body ← render_lines (pySplitLines m.document) 0 (sortInts m.lines)
  Except.ok (m.id ++ " (" ++ String.intercalate ", " m.tags ++ ")" ++ "\n" ++ body)

/-- daemon.py `render_context_message`: message blocks in insertion order,
separated by a blank line. -/
def render_context_message : Ctx → Except String String
  | [] => Except.ok ""
  | [pm] => render_one pm.2
  | pm :: rest => do
    let h ← render_one pm.2
    let t ← render_context_message rest
    Except.ok (h ++ "\n" ++ t)

/-- One comma-separated range term: `"a-b"` yields `range(int(a), int(b)+1)`,
a bare term yields its single line; a term with several dashes fails Python
tuple unpacking. -/
def parseRangePart (r : String) : Except String (List Int) :=
  if r.toList.contains '-' then
    match pySplit '-' r with
    | [a, b] => do
      let s ← pyInt a
      let e ← pyInt b
      Except.ok (intRange s (e + 1))
    | _ => Except.error "ValueError: not enough values to unpack"
  else do
    let i ← pyInt r
    Except.ok [i]

/-- daemon.py lines 114-124 and 147-157 (the same block appears in the
include phase and the search phase): a non-empty ranges suffix adds every
listed line; a bare path (or an empty suffix, which is falsy) adds lines
`1..len(document.splitlines())-1` (the document's first line is the file
name). -/
def mergeLines (ctx : Ctx) (path : String) (linesRef : Option String) :
    Except String Ctx :=
  let wholeFile : Ctx :=
    let doc := ((ctxLookup ctx path).map Msg.document).getD ""
    ctxAddLines ctx path (intRange 1 ((pySplitLines doc).length : Int))
  match linesRef with
  | some lref =>
    if ¬ (lref = "") then do
      let ls ← (pySplit ',' lref).foldlM (fun acc r => do
        let xs ← parseRangePart r
        Except.ok (acc ++ xs)) ([] : List Int)
      Except.ok (ctxAddLines ctx path ls)
    else Except.ok wholeFile
  | none => Except.ok wholeFile

/-- daemon.py lines 97-124, one explicit reference: an unknown path is
skipped with a warning; a known path creates the accumulator entry, after
which the source executes `context[path]["tags"].append("user-included")` on
a `set` — `set` has no `append`, so this raises `AttributeError`. The line
merging that follows in the source is translated after the raise and is
unreachable. -/
def include_one (nodeDoc : String → Option String) (ctx : Ctx) (id : String) :
    Except String Ctx := do
  let pr := splitFirstChar ':' id
  let path := pr.1
  match nodeDoc path with
  | none => Except.ok ctx
  | some doc => do
    let ctx := if (ctxLookup ctx path).isNone then
        ctxAppend ctx path { id := id, lines := [], tags := [], document := doc }
      else ctx
    let _ ← (Except.error "AttributeError: set object has no attribute append" :
      Except String Unit)
    mergeLines ctx path pr.2

/-- A ranked search result as consumed by the loop (its `path`, `id` and
`document` metadata fields). -/
structure SearchResult where
  path : String
  id : String
  document : String
deriving DecidableEq, Repr

/-- daemon.py lines 135-157, one search result (0-based rank `i`): create or
reuse the path's entry, tag it `no-<i+1>-search-result` via `set.add`, and
merge its line set. -/
def search_step (ctx : Ctx) (i : Nat) (node : SearchResult) : Except String Ctx := do
  let pr := splitFirstChar ':' node.path
  let path := pr.1
  let ctx := if (ctxLookup ctx path).isNone then
      ctxAppend ctx path { id := node.id, lines := [], tags := [], document := node.document }
    else ctx
  let ctx := ctxAddTag ctx path ("no-" ++ toString (i + 1) ++ "-search-result")
  mergeLines ctx path pr.2

/-- daemon.py lines 134-164: iterate results in rank order; after each merge
re-render and recount; if the growth over the explicit-only tokens exceeds
the remaining budget, return the previous render, else adopt and continue. -/
def search_loop (tokenCounter : String → Nat) (autoTokens includeTokens : Int) :
    List (Nat × SearchResult) → Ctx → String → Except String String
  | [], _, full => Except.ok full
  | (i, node) :: rest, ctx, full =>
    match search_step ctx i node with
    | Except.error e => Except.error e
    | Except.ok ctx2 =>
      match render_context_message ctx2 with
      | Except.error e => Except.error e
      | Except.ok next =>
        if (tokenCounter next : Int) - includeTokens > autoTokens then Except.ok full
        else search_loop tokenCounter autoTokens includeTokens rest ctx2 next

/-- daemon.py `Daemon.get_context_message`: resolve the explicit references,
render them; if that render already reaches `max_tokens` return it verbatim;
otherwise clamp the remaining budget to
`min(auto_tokens, max_tokens - include_tokens)` and run the search loop. -/
def get_context_message (nodeDoc : String → Option String)
    (tokenCounter : String → Nat) (results : List SearchResult)
    (includeRefs : List String) (maxTokens autoTokens : Int) :
    Except String String :=
  match includeRefs.foldlM (include_one nodeDoc) ([] : Ctx) with
  | Except.error e => Except.error e
  | Except.ok ctx =>
    match render_context_message ctx with
    | Except.error e => Except.error e
    | Except.ok includeMsg =>
      if (tokenCounter includeMsg : Int) ≥ maxTokens then Except.ok includeMsg
      else
        search_loop tokenCounter
          (min autoTokens (maxTokens - (tokenCounter includeMsg : Int)))
          (tokenCounter includeMsg) results.enum ctx includeMsg

/-! ## Helper lemmas -/

theorem mem_fileLineNumbers {n : Nat} {i : Int} :
    i ∈ fileLineNumbers n ↔ 1 ≤ i ∧ i ≤ (n : Int) := by
  constructor
  · intro h
    obtain ⟨k, hk, he⟩ := List.mem_map.mp h
    have hk2 := List.mem_range.mp hk
    omega
  · intro h
    refine List.mem_map.mpr ⟨(i - 1).toNat, List.mem_range.mpr ?_, ?_⟩ <;> omega

theorem mem_baseChunkLines {n : Nat} {chunks : List Chunk} {i : Int} :
    i ∈ baseChunkLines n chunks ↔
      (1 ≤ i ∧ i ≤ (n : Int)) ∧ coveredBy chunks i = false := by
  simp only [baseChunkLines, List.mem_filter, mem_fileLineNumbers,
    decide_eq_true_eq, Bool.not_eq_true', Bool.not_eq_true]

theorem countChar_append (c : Char) (s t : String) :
    countChar c (s ++ t) = countChar c s + countChar c t := by
  have h : (s ++ t).toList = s.toList ++ t.toList := rfl
  simp [countChar, h, List.count_append]

/-! ## C7 -/

/-- C7: for a non-empty file, a detector batch holding any invalid chunk
makes `get_file_chunk_data` fail for the whole file, so no chunk of that
file is accepted. -/
theorem C7_invalid_chunk_rejected (node : String) (fileLines : List String)
    (detected : List Chunk) (hlines : fileLines ≠ [])
    (hbad : ∃ c ∈ detected, is_chunk_valid c = false) :
    get_file_chunk_data node fileLines detected =
      Except.error "ValueError: invalid chunk data" := by
  have h1 : ¬ fileLines.length = 0 := by
    simpa [List.length_eq_zero] using hlines
  have h2 : ¬ (detected.all is_chunk_valid = true) := by
    obtain ⟨c, hc, hv⟩ := hbad
    simp only [List.all_eq_true, not_forall]
    exact ⟨c, hc, by simp [hv]⟩
  simp only [get_file_chunk_data]
  rw [if_neg h1, if_pos h2]

/-- C7 witness: the spec scenario `{id:"file:", start:1, end:2}` (empty
chunk-path) rejects the whole batch. -/
theorem C7_invalid_chunk_rejected_witness :
    get_file_chunk_data "file" ["a", "b"]
      [⟨["id", "start_line", "end_line"], "file:", 1, 2⟩] =
      Except.error "ValueError: invalid chunk data" :=
  C7_invalid_chunk_rejected "file" ["a", "b"]
    [⟨["id", "start_line", "end_line"], "file:", 1, 2⟩]
    (by decide)
    ⟨⟨["id", "start_line", "end_line"], "file:", 1, 2⟩, by decide, by decide⟩

/-! ## C10 -/

/-- C10: `is_chunk_valid` depends only on the key set and the id format —
it is invariant under changing `start_line`/`end_line`, any chunk with the
exact key set and a well-formed id is accepted whatever its range, and a
batch of such chunks flows into `get_file_chunk_data` successfully with no
range check. -/
theorem C10_validation_ignores_ranges :
    (∀ keys id s e s2 e2, is_chunk_valid ⟨keys, id, s, e⟩ =
      is_chunk_valid ⟨keys, id, s2, e2⟩) ∧
    (∀ c : Chunk,
      c.keys.toFinset = ({"id", "start_line", "end_line"} : Finset String) →
      countChar ':' c.id = 1 →
      0 < ((pySplit ':' c.id).getD 1 "").length →
      is_chunk_valid c = true) ∧
    (∀ node fileLines detected, fileLines ≠ [] →
      (∀ c ∈ detected, is_chunk_valid c = true) →
      ∃ cs, get_file_chunk_data node fileLines detected = Except.ok cs) := by
  refine ⟨fun keys id s e s2 e2 => rfl, ?_, ?_⟩
  · intro c hkeys hcolon hseg
    simp only [is_chunk_valid]
    rw [if_neg (by simp [hkeys]), if_neg (by simp [hcolon]),
      if_neg (by simp only [not_not]; exact hseg)]
  · intro node fileLines detected hlines hval
    have h1 : ¬ fileLines.length = 0 := by
      simpa [List.length_eq_zero] using hlines
    have h2 : detected.all is_chunk_valid = true := by
      simp only [List.all_eq_true]
      exact fun c hc => hval c hc
    simp only [get_file_chunk_data]
    rw [if_neg h1, if_neg (by simp [h2])]
    split
    · exact ⟨_, rfl⟩
    · exact ⟨_, rfl⟩

/-- C10 witness: a chunk whose range `99..-200` lies far outside a one-line
file is accepted by validation and by `get_file_chunk_data`. -/
theorem C10_validation_ignores_ranges_witness :
    is_chunk_valid ⟨["id", "start_line", "end_line"], "f:a", 99, -200⟩ = true ∧
    ∃ cs, get_file_chunk_data "f" ["only line"]
      [⟨["id", "start_line", "end_line"], "f:a", 99, -200⟩] = Except.ok cs :=
  ⟨C10_validation_ignores_ranges.2.1
      ⟨["id", "start_line", "end_line"], "f:a", 99, -200⟩
      (by decide) (by decide) (by decide),
    C10_validation_ignores_ranges.2.2 "f" ["only line"]
      [⟨["id", "start_line", "end_line"], "f:a", 99, -200⟩]
      (by decide) (by decide)⟩

/-! ## C9 -/

/-- C9: the `files_checksum` attribute stored by `Hierarchy.annotate` is the
hash of the sorted tracked-file checksum list, and `Hierarchy.is_complete`
holds exactly when recomputing that fingerprint matches the stored value; in
particular a freshly annotated graph is complete. -/
theorem C9_files_checksum (hashStr : String → String) (checksums : List String)
    (g : HGraph) :
    (hierarchy_annotate hashStr checksums g).files_checksum =
      some (hashStr (String.join (sortStrings checksums))) ∧
    (∀ g2 : HGraph, hierarchy_is_complete hashStr checksums g2 = true ↔
      g2.files_checksum = some (hierarchy_files_checksum hashStr checksums)) ∧
    hierarchy_is_complete hashStr checksums (hierarchy_annotate hashStr checksums g) = true := by
  refine ⟨rfl, ?_, ?_⟩
  · intro g2
    simp [hierarchy_is_complete]
  · simp [hierarchy_is_complete, hierarchy_annotate]

/-! ## C1 -/

/-- C1 counterexample: a one-line file with the validated chunk
`{id:"f:a", start:5, end:5}`. Validation passes (it never checks ranges),
line 5 is covered by the author chunk, yet 5 is not in `{1..1}`, and the
BASE complement is `{1}`: the union `{1,5}` is not `{1..N}`, refuting the
claimed partition for arbitrary validated detector output. -/
theorem C1_counterexample :
    is_chunk_valid ⟨["id", "start_line", "end_line"], "f:a", 5, 5⟩ = true ∧
    get_file_chunk_data "f" ["only"]
        [⟨["id", "start_line", "end_line"], "f:a", 5, 5⟩] =
      Except.ok [⟨"f:a", "f:5-5"⟩, ⟨"f:BASE", "f:1-1"⟩] ∧
    ¬ (∀ i : Int,
      (coveredBy [⟨["id", "start_line", "end_line"], "f:a", 5, 5⟩] i = true ∨
        i ∈ baseChunkLines 1 [⟨["id", "start_line", "end_line"], "f:a", 5, 5⟩]) ↔
      (1 ≤ i ∧ i ≤ 1)) := by
  refine ⟨by decide, by rfl, fun h => ?_⟩
  have h5 := (h 5).mp (Or.inl (by decide))
  omega

/-- C1 amended: for a non-empty file of N lines and a non-empty validated
detector output all of whose ranges lie inside `{1..N}`, the author-chunk
lines and the BASE complement lines partition `{1..N}` exactly: their union
is `{1..N}` and no line is in both. -/
theorem C1_partition_amended (node : String) (fileLines : List String)
    (detected : List Chunk) (hlines : fileLines ≠ []) (hne : detected ≠ [])
    (hval : ∀ c ∈ detected, is_chunk_valid c = true)
    (hrange : ∀ c ∈ detected,
      1 ≤ c.start_line ∧ c.end_line ≤ (fileLines.length : Int)) :
    (∀ i : Int,
      (coveredBy detected i = true ∨ i ∈ baseChunkLines fileLines.length detected) ↔
      (1 ≤ i ∧ i ≤ (fileLines.length : Int))) ∧
    (∀ i : Int,
      ¬ (coveredBy detected i = true ∧ i ∈ baseChunkLines fileLines.length detected)) := by
  constructor
  · intro i
    constructor
    · rintro (hcov | hbase)
      · obtain ⟨c, hc, hci⟩ := List.any_eq_true.mp hcov
        have hr := hrange c hc
        simp only [Bool.and_eq_true, decide_eq_true_eq] at hci
        omega
      · exact (mem_baseChunkLines.mp hbase).1
    · intro h
      by_cases hcov : coveredBy detected i = true
      · exact Or.inl hcov
      · exact Or.inr (mem_baseChunkLines.mpr ⟨h, Bool.not_eq_true _ ▸ hcov⟩)
  · rintro i ⟨hcov, hbase⟩
    have h2 := (mem_baseChunkLines.mp hbase).2
    rw [hcov] at h2
    simp at h2

/-- C1 amended witness: the spec scenario (10-line file, chunk covering
lines 3..6) at line 7, which is uncovered and hence in the BASE complement. -/
theorem C1_partition_amended_witness :
    (coveredBy [⟨["id", "start_line", "end_line"], "f:foo", 3, 6⟩] 7 = true ∨
      (7 : Int) ∈ baseChunkLines 10 [⟨["id", "start_line", "end_line"], "f:foo", 3, 6⟩]) ↔
    (1 ≤ (7 : Int) ∧ (7 : Int) ≤ 10) := by
  have h := (C1_partition_amended "f"
    ["a", "b", "c", "d", "e", "f", "g", "h", "i", "j"]
    [⟨["id", "start_line", "end_line"], "f:foo", 3, 6⟩]
    (by decide) (by decide) (by decide) (by decide)).1 7
  simpa using h

/-! ## C6 -/

theorem runsLoop_ne_nil (start e : Int) (l : List Int) :
    runsLoop start e l ≠ [] := by
  induction l generalizing start e with
  | nil => simp [runsLoop]
  | cons i rest ih =>
    simp only [runsLoop]
    split
    · exact ih start i
    · simp

theorem refsLoop_ne_nil (start e : Int) (l : List Int) :
    refsLoop start e l ≠ [] := by
  induction l generalizing start e with
  | nil => simp [refsLoop]
  | cons i rest ih =>
    simp only [refsLoop]
    split
    · exact ih start i
    · simp

theorem runsLoop_head_fst (start e : Int) (l : List Int) :
    ∃ b t, runsLoop start e l = (start, b) :: t := by
  induction l generalizing start e with
  | nil => exact ⟨e, [], rfl⟩
  | cons i rest ih =>
    simp only [runsLoop]
    split
    · exact ih start i
    · exact ⟨e, runsLoop i i rest, rfl⟩

/-- The source's serialization loop equals the run grouping followed by the
asymmetric serialization (bare singletons inside the loop, dashed final run). -/
theorem refsLoop_eq_amendedSerialize (start e : Int) (l : List Int) :
    refsLoop start e l = amendedSerialize (runsLoop start e l) := by
  induction l generalizing start e with
  | nil => rfl
  | cons i rest ih =>
    simp only [refsLoop, runsLoop]
    split
    · exact ih start i
    · cases hr : runsLoop i i rest with
      | nil => exact absurd hr (runsLoop_ne_nil i i rest)
      | cons r t =>
        rw [ih i i, hr]
        rfl

theorem intRange_succ_right {a b : Int} (h : a ≤ b) :
    intRange a (b + 1) = intRange a b ++ [b] := by
  unfold intRange
  have h1 : (b + 1 - a).toNat = (b - a).toNat + 1 := by omega
  rw [h1, List.range_succ, List.map_append, List.map_singleton]
  have h2 : a + ((b - a).toNat : Int) = b := by omega
  rw [h2]

theorem intRange_single (a : Int) : intRange a (a + 1) = [a] := by
  unfold intRange
  have h1 : (a + 1 - a).toNat = 1 := by omega
  rw [h1, show List.range 1 = [0] from rfl, List.map_singleton]
  norm_num

/-- The invariant of the run loop: over a strictly ascending tail, the runs
cover exactly `start..e` followed by the tail, every run is non-degenerate,
and consecutive runs are separated by a gap of at least one line. -/
theorem runsLoop_runs (start e : Int) (l : List Int) (hse : start ≤ e)
    (hch : List.Chain' (fun a b => a < b) (e :: l)) :
    ((runsLoop start e l).flatMap (fun r => intRange r.1 (r.2 + 1)) =
      intRange start (e + 1) ++ l) ∧
    (∀ r ∈ runsLoop start e l, r.1 ≤ r.2) ∧
    List.Chain' (fun r s => r.2 + 1 < s.1) (runsLoop start e l) := by
  induction l generalizing start e with
  | nil =>
    refine ⟨?_, ?_, ?_⟩
    · show intRange start (e + 1) ++ [] = intRange start (e + 1) ++ []
      rfl
    · intro r hr
      simp only [runsLoop, List.mem_singleton] at hr
      subst hr
      exact hse
    · show List.Chain' _ [(start, e)]
      exact List.chain'_singleton _
  | cons i rest ih =>
    obtain ⟨hei, hch2⟩ := List.chain'_cons.mp hch
    simp only [runsLoop]
    split
    · rename_i h
      have hrec := ih start i (by omega) hch2
      refine ⟨?_, hrec.2.1, hrec.2.2⟩
      rw [hrec.1, h]
      rw [show e + 1 + 1 = (e + 1) + 1 from rfl, intRange_succ_right (by omega)]
      simp
    · rename_i h
      have hrec := ih i i le_rfl hch2
      refine ⟨?_, ?_, ?_⟩
      · simp only [List.flatMap_cons, hrec.1, intRange_single]
        simp
      · intro r hr
        rcases List.mem_cons.mp hr with hr1 | hr2
        · subst hr1; exact hse
        · exact hrec.2.1 r hr2
      · obtain ⟨b, t, hbt⟩ := runsLoop_head_fst i i rest
        rw [hbt]
        exact List.chain'_cons.mpr ⟨by omega, hbt ▸ hrec.2.2⟩

theorem baseChunkRefs_nil_iff (n : Nat) (chunks : List Chunk) :
    baseChunkRefs n chunks = [] ↔ baseChunkLines n chunks = [] := by
  unfold baseChunkRefs
  cases hb : baseChunkLines n chunks with
  | nil => simp
  | cons x xs => simpa using refsLoop_ne_nil x x xs

/-- C6 amended: the BASE ref suffix is built by grouping the uncovered lines
into maximal consecutive runs, serializing every run flushed inside the loop
(i.e. every run but the last) as a bare `"n"` when its length is 1 and as
`"start-end"` otherwise, but serializing the final run always as
`"start-end"` even when its length is 1; runs are joined with commas and the
BASE ref is the bare path exactly when no lines are uncovered. -/
theorem C6_base_ref_amended :
    (∀ (n : Nat) (chunks : List Chunk),
      baseChunkRefs n chunks = amendedSerialize (runsOf (baseChunkLines n chunks))) ∧
    (∀ (node : String) (n : Nat) (chunks : List Chunk),
      (baseChunk node n chunks).ref =
        (if baseChunkLines n chunks = [] then node
        else node ++ ":" ++ String.intercalate ","
          (amendedSerialize (runsOf (baseChunkLines n chunks))))) ∧
    (∀ l : List Int, List.Chain' (fun a b => a < b) l →
      ((runsOf l).flatMap (fun r => intRange r.1 (r.2 + 1)) = l) ∧
      (∀ r ∈ runsOf l, r.1 ≤ r.2) ∧
      List.Chain' (fun r s => r.2 + 1 < s.1) (runsOf l)) := by
  have hrefs : ∀ (n : Nat) (chunks : List Chunk),
      baseChunkRefs n chunks = amendedSerialize (runsOf (baseChunkLines n chunks)) := by
    intro n chunks
    unfold baseChunkRefs runsOf
    cases baseChunkLines n chunks with
    | nil => rfl
    | cons x xs => exact refsLoop_eq_amendedSerialize x x xs
  refine ⟨hrefs, ?_, ?_⟩
  · intro node n chunks
    by_cases hb : baseChunkLines n chunks = []
    · have h0 : baseChunkRefs n chunks = [] := (baseChunkRefs_nil_iff n chunks).mpr hb
      simp [baseChunk, h0, hb]
    · have h0 : baseChunkRefs n chunks ≠ [] :=
        fun h => hb ((baseChunkRefs_nil_iff n chunks).mp h)
      have h3 : amendedSerialize (runsOf (baseChunkLines n chunks)) ≠ [] := by
        rw [← hrefs n chunks]
        exact h0
      have h2 : (amendedSerialize (runsOf (baseChunkLines n chunks))).isEmpty = false := by
        simpa [List.isEmpty_iff] using h3
      simp [baseChunk, hb, hrefs n chunks, h2]
  · intro l hch
    cases l with
    | nil => exact ⟨rfl, by simp [runsOf], by simp [runsOf]⟩
    | cons x xs =>
      have h := runsLoop_runs x x xs le_rfl hch
      refine ⟨?_, h.2.1, h.2.2⟩
      show (runsLoop x x xs).flatMap _ = x :: xs
      rw [h.1, intRange_single]
      rfl

/-- C6 counterexample: 10-line file, validated chunk covering lines 2..10.
The uncovered lines are the single run `{1}`, which the claim serializes as
the bare `"1"` (BASE ref `"file:1"`), but the source serializes the final
run as `"1-1"` (BASE ref `"file:1-1"`). -/
theorem C6_counterexample :
    get_file_chunk_data "file" ["1", "2", "3", "4", "5", "6", "7", "8", "9", "10"]
        [⟨["id", "start_line", "end_line"], "file:foo", 2, 10⟩] =
      Except.ok [⟨"file:foo", "file:2-10"⟩, ⟨"file:BASE", "file:1-1"⟩] ∧
    (baseChunk "file" 10
        [⟨["id", "start_line", "end_line"], "file:foo", 2, 10⟩]).ref ≠ "file:1" :=
  ⟨by rfl, by decide⟩

/-- C6 amended witness: the serialization equality at the spec scenario and
the run decomposition of the ascending list `[1, 2, 5]`. -/
theorem C6_base_ref_amended_witness :
    baseChunkRefs 10 [⟨["id", "start_line", "end_line"], "f:foo", 3, 6⟩] =
      amendedSerialize (runsOf
        (baseChunkLines 10 [⟨["id", "start_line", "end_line"], "f:foo", 3, 6⟩])) ∧
    (runsOf [1, 2, 5]).flatMap (fun r => intRange r.1 (r.2 + 1)) = [1, 2, 5] :=
  ⟨C6_base_ref_amended.1 10 [⟨["id", "start_line", "end_line"], "f:foo", 3, 6⟩],
    (C6_base_ref_amended.2.2 [1, 2, 5]
      (by norm_num [List.chain'_cons, List.chain'_singleton])).1⟩

/-! ## C4 -/

/-- C4: the Chunker's edge synthesis violates the forest invariant. For a
3-line file `f` with one validated author chunk `f:a` (lines 1..2), the
chunk list is `[f:a, f:BASE]`; `_link_to_base_chunk` runs on the BASE chunk
itself and computes BASE as its own parent, so the hierarchy edge set
contains the self-loop `(f:BASE, f:BASE)` and `f:BASE` has two incoming
hierarchy edges — the claimed "at most one incoming hierarchy edge per node"
fails even for a single Hierarchy-then-Chunker run. -/
theorem C4_base_self_loop :
    get_file_chunk_data "f" ["l1", "l2", "l3"]
        [⟨["id", "start_line", "end_line"], "f:a", 1, 2⟩] =
      Except.ok [⟨"f:a", "f:1-2"⟩, ⟨"f:BASE", "f:3-3"⟩] ∧
    fileChunkEdges "f" [⟨"f:a", "f:1-2"⟩, ⟨"f:BASE", "f:3-3"⟩] (fun _ => true) =
      Except.ok [("f", "f:BASE"), ("f:BASE", "f:a"), ("f:BASE", "f:BASE")] ∧
    ("f:BASE", "f:BASE") ∈
      [("f", "f:BASE"), ("f:BASE", "f:a"), ("f:BASE", "f:BASE")] ∧
    List.countP (fun e => e.2 = "f:BASE")
      [("f", "f:BASE"), ("f:BASE", "f:a"), ("f:BASE", "f:BASE")] = 2 :=
  ⟨by rfl, by rfl, by decide, by decide⟩

/-! ## C3 -/

/-- C3: `Chunker.annotate` is not idempotent on a complete graph. The graph
below is complete (its only file has a non-null chunk list) and already
carries the three hierarchy edges of that file; `annotate` re-runs
`add_file_chunks_to_graph` for every matching file and networkx
`MultiDiGraph.add_edge` appends parallel duplicates, so every chunk
hierarchy edge is doubled and the result is a different graph. -/
theorem C3_annotate_not_idempotent :
    chunker_is_complete
      { files := [("f", some [⟨"f:a", "f:1-2"⟩, ⟨"f:BASE", "f:3-3"⟩])],
        edges := [("f", "f:BASE"), ("f:BASE", "f:a"), ("f:BASE", "f:BASE")] } = true ∧
    chunker_annotate (fun _ => []) (fun _ => []) (fun _ => true)
      { files := [("f", some [⟨"f:a", "f:1-2"⟩, ⟨"f:BASE", "f:3-3"⟩])],
        edges := [("f", "f:BASE"), ("f:BASE", "f:a"), ("f:BASE", "f:BASE")] } =
      Except.ok
      { files := [("f", some [⟨"f:a", "f:1-2"⟩, ⟨"f:BASE", "f:3-3"⟩])],
        edges := [("f", "f:BASE"), ("f:BASE", "f:a"), ("f:BASE", "f:BASE"),
          ("f", "f:BASE"), ("f:BASE", "f:a"), ("f:BASE", "f:BASE")] } ∧
    ({ files := [("f", some [⟨"f:a", "f:1-2"⟩, ⟨"f:BASE", "f:3-3"⟩])],
        edges := [("f", "f:BASE"), ("f:BASE", "f:a"), ("f:BASE", "f:BASE"),
          ("f", "f:BASE"), ("f:BASE", "f:a"), ("f:BASE", "f:BASE")] } : ChunkerGraph) ≠
      { files := [("f", some [⟨"f:a", "f:1-2"⟩, ⟨"f:BASE", "f:3-3"⟩])],
        edges := [("f", "f:BASE"), ("f:BASE", "f:a"), ("f:BASE", "f:BASE")] } :=
  ⟨by rfl, by rfl, by decide⟩

/-! ## C5 -/

theorem splitChar_length (c : Char) (l : List Char) :
    (splitChar c l).length = l.count c + 1 := by
  induction l with
  | nil => rfl
  | cons a rest ih =>
    simp only [splitChar]
    by_cases h : a = c
    · rw [if_pos h]
      simp [List.count_cons, h, ih]
    · rw [if_neg h]
      cases hr : splitChar c rest with
      | nil =>
        rw [hr] at ih
        simp at ih
      | cons hh tt =>
        rw [hr] at ih
        simp only [List.length_cons] at ih ⊢
        simp [List.count_cons, h]
        omega

theorem pySplit_two_of_count_one {s : String} (h : countChar ':' s = 1) :
    ∃ a b, pySplit ':' s = [a, b] := by
  have hl : (splitChar ':' s.toList).length = 2 := by
    rw [splitChar_length]
    simp only [countChar] at h
    omega
  cases h0 : splitChar ':' s.toList with
  | nil => rw [h0] at hl; simp at hl
  | cons x t =>
    cases h1 : t with
    | nil => rw [h0, h1] at hl; simp at hl
    | cons y t2 =>
      cases h2 : t2 with
      | nil =>
        refine ⟨String.mk x, String.mk y, ?_⟩
        unfold pySplit
        rw [h0, h1, h2]
        rfl
      | cons z t3 => rw [h0, h1, h2] at hl; simp at hl

theorem is_chunk_valid_colon {c : Chunk} (h : is_chunk_valid c = true) :
    countChar ':' c.id = 1 := by
  unfold is_chunk_valid at h
  split at h
  · simp at h
  · split at h
    · simp at h
    · rename_i h1 h2
      exact not_not.mp h2

theorem chainForward_src (cur : String) (segs : List String)
    (hc : 1 ≤ countChar ':' cur) :
    ∀ e ∈ chainForward cur segs, 1 ≤ countChar ':' e.1 := by
  induction segs generalizing cur with
  | nil => simp [chainForward]
  | cons s rest ih =>
    intro e he
    simp only [chainForward, List.mem_cons] at he
    rcases he with he | he
    · rw [he]
      exact hc
    · refine ih (cur ++ "." ++ s) ?_ e he
      rw [countChar_append, countChar_append]
      omega

theorem linkToBase_src (baseId p : String) (segs : List String)
    (hb : 1 ≤ countChar ':' baseId) :
    ∀ e ∈ linkToBase baseId p segs, 1 ≤ countChar ':' e.1 := by
  cases segs with
  | nil =>
    intro e he
    simp only [linkToBase, List.mem_singleton] at he
    rw [he]
    exact hb
  | cons s rest =>
    intro e he
    simp only [linkToBase, List.mem_cons] at he
    rcases he with he | he
    · rw [he]
      exact hb
    · refine chainForward_src (p ++ ":" ++ s) rest ?_ e he
      rw [countChar_append, countChar_append]
      have : countChar ':' ":" = 1 := by decide
      omega

theorem filter_insertEdge (P : String × String → Bool) (e : String × String)
    (l : List (String × String)) (hP : P e = false) :
    (insertEdge e l).filter P = l.filter P := by
  unfold insertEdge
  split
  · rfl
  · simp [List.filter_append, hP]

theorem filter_foldl_insertEdge (P : String × String → Bool) :
    ∀ (new : List (String × String)) (acc : List (String × String)),
    (∀ e ∈ new, P e = false) →
    (new.foldl (fun a e => insertEdge e a) acc).filter P = acc.filter P := by
  intro new
  induction new with
  | nil => intro acc _; rfl
  | cons e rest ih =>
    intro acc h
    simp only [List.foldl_cons]
    rw [ih (insertEdge e acc) (fun x hx => h x (List.mem_cons_of_mem e hx)),
      filter_insertEdge P e acc (h e (List.mem_cons_self e rest))]

theorem edgesLoop_ok_filter (node baseId : String) (resolveOk : ChunkRef → Bool)
    (hb : 1 ≤ countChar ':' baseId) (hnode : countChar ':' node = 0) :
    ∀ (cs : List ChunkRef) (acc : List (String × String)),
    (∀ c ∈ cs, countChar ':' c.id = 1) →
    ∃ es, edgesLoop baseId resolveOk cs acc = Except.ok es ∧
      es.filter (fun e => e.1 = node) = acc.filter (fun e => e.1 = node) := by
  intro cs
  induction cs with
  | nil => intro acc _; exact ⟨acc, rfl, rfl⟩
  | cons c rest ih =>
    intro acc h
    simp only [edgesLoop]
    by_cases hr : resolveOk c = true
    · rw [if_pos hr]
      obtain ⟨a, b, hab⟩ := pySplit_two_of_count_one (h c (List.mem_cons_self c rest))
      rw [hab]
      obtain ⟨es, h1, h2⟩ :=
        ih ((linkToBase baseId a (pySplit '.' b)).foldl (fun x e => insertEdge e x) acc)
          (fun x hx => h x (List.mem_cons_of_mem c hx))
      refine ⟨es, h1, ?_⟩
      rw [h2, filter_foldl_insertEdge]
      intro e he
      have hsrc := linkToBase_src baseId a (pySplit '.' b) hb e he
      simp only [decide_eq_false_iff_not]
      intro hEq
      rw [hEq, hnode] at hsrc
      omega
    · rw [if_neg hr]
      exact ih acc (fun x hx => h x (List.mem_cons_of_mem c hx))

/-- Shape of a successful, non-empty `get_file_chunk_data` result: all
detector chunks were valid and the output is the standardized author chunks
followed by the BASE chunk. -/
theorem get_file_chunk_data_ok_shape {node : String} {fileLines : List String}
    {detected : List Chunk} {cs : List ChunkRef}
    (hok : get_file_chunk_data node fileLines detected = Except.ok cs)
    (hne : cs ≠ []) :
    (∀ c ∈ detected, is_chunk_valid c = true) ∧
    cs = (detected.map (fun c =>
        { id := c.id,
          ref := node ++ ":" ++ toString c.start_line ++ "-" ++ toString c.end_line })) ++
      [baseChunk node fileLines.length detected] := by
  unfold get_file_chunk_data at hok
  split at hok
  · cases hok
    exact absurd rfl hne
  · split at hok
    · cases hok
    · split at hok
      · cases hok
        exact absurd rfl hne
      · rename_i h1 h2 h3
        cases hok
        refine ⟨?_, rfl⟩
        intro c hc
        have := not_not.mp h2
        exact List.all_eq_true.mp this c hc

/-- C5 counterexample: an empty file is decomposed to the chunk list `[]`
(a non-null `chunks` attribute, so the file counts as decomposed), yet no
chunk with id `"f:BASE"` exists and `add_file_chunks_to_graph` returns early
with no edges, so the file node has no hierarchy child at all. -/
theorem C5_counterexample :
    get_file_chunk_data "f" [] [] = Except.ok [] ∧
    fileChunkEdges "f" [] (fun _ => true) = Except.ok [] ∧
    (¬ ∃ c ∈ ([] : List ChunkRef), c.id = "f:BASE") :=
  ⟨by rfl, by rfl, by simp⟩

/-- C5 amended: for every file whose decomposition produced a NON-EMPTY
chunk list (and whose path contains no ":"), a chunk with id
`"<path>:BASE"` is in the list, and among the hierarchy edges added for the
file the only edge whose source is the file node is the one to
`"<path>:BASE"` — the file has exactly one direct hierarchy child. -/
theorem C5_base_child_amended (node : String) (fileLines : List String)
    (detected : List Chunk) (cs : List ChunkRef) (resolveOk : ChunkRef → Bool)
    (hnode : countChar ':' node = 0)
    (hok : get_file_chunk_data node fileLines detected = Except.ok cs)
    (hne : cs ≠ []) :
    (∃ c ∈ cs, c.id = node ++ ":BASE") ∧
    ∃ es, fileChunkEdges node cs resolveOk = Except.ok es ∧
      es.filter (fun e => e.1 = node) = [(node, node ++ ":BASE")] := by
  obtain ⟨hval, hcs⟩ := get_file_chunk_data_ok_shape hok hne
  have hbase : 1 ≤ countChar ':' (node ++ ":BASE") := by
    rw [countChar_append, hnode]
    have : countChar ':' ":BASE" = 1 := by decide
    omega
  constructor
  · refine ⟨baseChunk node fileLines.length detected, ?_, rfl⟩
    rw [hcs]
    simp
  · have hids : ∀ c ∈ cs, countChar ':' c.id = 1 := by
      rw [hcs]
      intro c hc
      rcases List.mem_append.mp hc with h | h
      · obtain ⟨d, hd, he⟩ := List.mem_map.mp h
        rw [← he]
        exact is_chunk_valid_colon (hval d hd)
      · simp only [List.mem_singleton] at h
        rw [h]
        show countChar ':' (node ++ ":BASE") = 1
        rw [countChar_append, hnode]
        decide
    unfold fileChunkEdges
    rw [if_neg (by simpa [List.length_eq_zero] using hne)]
    obtain ⟨es, h1, h2⟩ := edgesLoop_ok_filter node (node ++ ":BASE") resolveOk hbase hnode
      cs [(node, node ++ ":BASE")] hids
    refine ⟨es, h1, ?_⟩
    rw [h2]
    simp

/-- C5 amended witness: a 3-line file `f` with one author chunk. -/
theorem C5_base_child_amended_witness :
    (∃ c ∈ [(⟨"f:a", "f:1-2"⟩ : ChunkRef), ⟨"f:BASE", "f:3-3"⟩], c.id = "f:BASE") ∧
    ∃ es, fileChunkEdges "f" [⟨"f:a", "f:1-2"⟩, ⟨"f:BASE", "f:3-3"⟩] (fun _ => true) =
        Except.ok es ∧
      es.filter (fun e => e.1 = "f") = [("f", "f:BASE")] := by
  have h := C5_base_child_amended "f" ["l1", "l2", "l3"]
    [⟨["id", "start_line", "end_line"], "f:a", 1, 2⟩]
    [⟨"f:a", "f:1-2"⟩, ⟨"f:BASE", "f:3-3"⟩] (fun _ => true)
    (by decide) (by rfl) (by decide)
  simpa [show "f" ++ ":BASE" = "f:BASE" from by decide] using h

/-! ## C2 -/

/-- The search loop never returns a message above `maxTokens` as long as the
running render is within `maxTokens` and the remaining budget is at most
`maxTokens - includeTokens`. -/
theorem search_loop_bound (tokenCounter : String → Nat) (autoT incT maxT : Int)
    (hauto : autoT ≤ maxT - incT) :
    ∀ (l : List (Nat × SearchResult)) (ctx : Ctx) (full : String),
    (tokenCounter full : Int) ≤ maxT →
    ∀ msg, search_loop tokenCounter autoT incT l ctx full = Except.ok msg →
    (tokenCounter msg : Int) ≤ maxT := by
  intro l
  induction l with
  | nil =>
    intro ctx full hfull msg h
    simp only [search_loop] at h
    cases h
    exact hfull
  | cons p rest ih =>
    intro ctx full hfull msg h
    obtain ⟨i, node⟩ := p
    cases hstep : search_step ctx i node with
    | error e =>
      simp only [search_loop, hstep] at h
      cases h
    | ok ctx2 =>
      cases hren : render_context_message ctx2 with
      | error e =>
        simp only [search_loop, hstep, hren] at h
        cases h
      | ok next =>
        simp only [search_loop, hstep, hren] at h
        by_cases hc : (tokenCounter next : Int) - incT > autoT
        · rw [if_pos hc] at h
          cases h
          exact hfull
        · rw [if_neg hc] at h
          exact ih ctx2 next (by omega) msg h

/-- C2: in `get_context_message`, once the explicit-reference phase yields a
context rendering to `r`: if `r` alone reaches `max_tokens` it is returned
verbatim with no search results added; otherwise any returned message stays
within `max_tokens`; and a search result whose adoption would push the total
over `include_tokens + min(auto_tokens, max_tokens - include_tokens)` makes
the loop return the previous render. -/
theorem C2_token_budget (nodeDoc : String → Option String)
    (tokenCounter : String → Nat) (results : List SearchResult)
    (includeRefs : List String) (maxTokens autoTokens : Int)
    (ctx : Ctx) (r : String)
    (hctx : includeRefs.foldlM (include_one nodeDoc) ([] : Ctx) = Except.ok ctx)
    (hr : render_context_message ctx = Except.ok r) :
    ((tokenCounter r : Int) ≥ maxTokens →
      get_context_message nodeDoc tokenCounter results includeRefs maxTokens autoTokens =
        Except.ok r) ∧
    ((tokenCounter r : Int) < maxTokens →
      ∀ msg,
        get_context_message nodeDoc tokenCounter results includeRefs maxTokens autoTokens =
          Except.ok msg →
        (tokenCounter msg : Int) ≤ maxTokens) ∧
    (∀ (i : Nat) (node : SearchResult) (rest : List (Nat × SearchResult))
        (ctx2 ctx3 : Ctx) (full next : String),
      search_step ctx2 i node = Except.ok ctx3 →
      render_context_message ctx3 = Except.ok next →
      (tokenCounter next : Int) - (tokenCounter r : Int) >
        min autoTokens (maxTokens - (tokenCounter r : Int)) →
      search_loop tokenCounter (min autoTokens (maxTokens - (tokenCounter r : Int)))
        (tokenCounter r) ((i, node) :: rest) ctx2 full = Except.ok full) := by
  refine ⟨?_, ?_, ?_⟩
  · intro hge
    simp only [get_context_message, hctx, hr]
    rw [if_pos hge]
  · intro hlt msg h
    simp only [get_context_message, hctx, hr] at h
    rw [if_neg (by omega)] at h
    exact search_loop_bound tokenCounter
      (min autoTokens (maxTokens - (tokenCounter r : Int))) (tokenCounter r) maxTokens
      (min_le_right _ _) results.enum ctx r (by omega) msg h
  · intro i node rest ctx2 ctx3 full next hstep hren hgt
    simp only [search_loop, hstep, hren]
    rw [if_pos hgt]

/-- C2 witness: empty explicit references (render `""`, 0 tokens, below the
100-token cap) and one search result whose adopted render has 29 tokens,
within the budget. -/
theorem C2_token_budget_witness :
    (String.length "f (no-1-search-result)\n1: l1\n" : Int) ≤ 100 := by
  have h := (C2_token_budget (fun _ => none) String.length
    [⟨"f", "f", "f\nl1"⟩] [] 100 50 [] "" rfl rfl).2.1
  exact h (by decide) "f (no-1-search-result)\n1: l1\n" (by rfl)

/-! ## C8 -/

/-- C8: resolving an explicit reference whose path is in the graph crashes.
`get_context_message` creates the accumulator entry and then executes
`context[path]["tags"].append("user-included")` on a Python `set`, raising
`AttributeError` — the claimed `"user-included"` tagging and line-set merge
(`{1..5}` for refs `"f:1-3"`, `"f:2-5"`) is never reached. References whose
path is not in the graph are indeed skipped without failing. -/
theorem C8_include_crash :
    get_context_message
        (fun p => if p = "f" then some "f\nl1\nl2\nl3\nl4\nl5" else none)
        String.length [] ["f:1-3", "f:2-5"] 8000 2000 =
      Except.error "AttributeError: set object has no attribute append" ∧
    get_context_message (fun _ => none) String.length [] ["ghost:1-3"] 8000 2000 =
      Except.ok "" :=
  ⟨by rfl, by rfl⟩

end Ragdaemon
